import Mathlib

/-!
Verification of the nested binary parquet decoder
(`src/io/parquet/read/deserialize/binary/nested.rs`).

The development shallowly embeds the per-page decode state machine
(`State`, `BinaryDecoder::build_state`, `push_valid`, `push_null`) and the
chunk-producing driver (`ArrayIterator::next`).  Lazy iterators over page
buffers (`BinaryIter`, the hybrid-RLE index decoder inside
`ValuesDictionary`) live outside the given source file; following the
specification they are modelled as the already-decoded sequences the page
carries.  Rust panics (slice indexing out of bounds, `Option::unwrap`) are
modelled explicitly: `push_valid` returns `none` and `build_state` returns
`BuildResult.panic` exactly where the Rust code would panic.
-/

/-- A decoded byte string: a list of bytes. -/
abbrev ByteString := List Nat

/-- Modelled from the spec: the dictionary view (`values()` / `offsets()` of
the pre-decoded binary dictionary page) consumed by `ValuesDictionary`,
whose definition is outside this source file: a flat byte buffer plus an
offset array delimiting entries. -/
structure BinaryDict where
  values : List Nat
  offsets : List Nat
deriving Repr, DecidableEq

/-- The dynamically-typed dictionary page reference held by a `DataPage`.
`build_state` downcasts it to the binary dictionary type with
`dict.as_any().downcast_ref().unwrap()`; `nonBinary` models a dictionary
page of any other concrete type. -/
inductive AnyDictPage
  | binary (d : BinaryDict)
  | nonBinary
deriving Repr, DecidableEq

/-- The page encodings distinguished by `build_state`.  `other` stands for
every encoding distinct from `Plain`, `PlainDictionary` and
`RleDictionary` (they all fall to the catch-all arm). -/
inductive Encoding
  | plain
  | plainDictionary
  | rleDictionary
  | other
deriving Repr, DecidableEq

/-- Modelled from the spec: a data page at the interface `build_state`
reads.  `isOptional` is `repetition == Repetition::Optional`; `isFiltered`
is `selected_rows().is_some()`.  The lazy sequences the page's buffers
decode to (the `BinaryIter` over the plain value sub-buffer, and the
hybrid-RLE decoded dictionary indices of `ValuesDictionary::try_new`,
neither defined in this source file) are carried already decoded as
`plainValues` and `dictIndices`. -/
structure DataPage where
  encoding : Encoding
  dictionary : Option AnyDictPage
  isOptional : Bool
  isFiltered : Bool
  plainValues : List ByteString
  dictIndices : List Nat
deriving Repr, DecidableEq

/-- The per-page decode state (`enum State<'a>` in the source), with the
lazy iterators represented by the lists of their remaining elements. -/
inductive State
  | Optional (values : List ByteString)
  | Required (values : List ByteString)
  | RequiredDictionary (indices : List Nat) (dict : BinaryDict)
  | OptionalDictionary (indices : List Nat) (dict : BinaryDict)
deriving Repr, DecidableEq

/-- The error produced by the catch-all arm of `build_state`
(`utils::not_implemented(page)`). -/
inductive DecodeError
  | notImplemented
deriving Repr, DecidableEq

/-- Result of `build_state`: a state, an error `Result`, or a Rust panic
(the `unwrap` of the unchecked dictionary downcast). -/
inductive BuildResult
  | ok (s : State)
  | err (e : DecodeError)
  | panic
deriving Repr, DecidableEq

/-- `BinaryDecoder::build_state`: the decision table over
(encoding, dictionary presence, optionality, filter presence).
The dictionary arms perform `dict.as_any().downcast_ref().unwrap()`,
which panics when the dictionary page is not of the binary type, and then
`ValuesDictionary::try_new(page, dict)` (outside this file, modelled from
the spec as producing the lazy index sequence plus the dictionary view).
`build_state` receives no accumulator, so no accumulator can be mutated on
any outcome. -/
def build_state (page : DataPage) : BuildResult :=
  match page.encoding, page.dictionary, page.isOptional, page.isFiltered with
  | Encoding.plainDictionary, some d, false, false
  | Encoding.rleDictionary, some d, false, false =>
    match d with
    | AnyDictPage.binary bd => BuildResult.ok (State.RequiredDictionary page.dictIndices bd)
    | AnyDictPage.nonBinary => BuildResult.panic
  | Encoding.plainDictionary, some d, true, false
  | Encoding.rleDictionary, some d, true, false =>
    match d with
    | AnyDictPage.binary bd => BuildResult.ok (State.OptionalDictionary page.dictIndices bd)
    | AnyDictPage.nonBinary => BuildResult.panic
  | Encoding.plain, _, true, false => BuildResult.ok (State.Optional page.plainValues)
  | Encoding.plain, _, false, false => BuildResult.ok (State.Required page.plainValues)
  | _, _, _, _ => BuildResult.err DecodeError.notImplemented

/-- Modelled from the spec: the binary value accumulator `Binary<O>`
(defined outside this source file): a flat byte buffer plus an offset
array; `offsets[i]..offsets[i+1]` delimits value `i`. -/
structure Binary where
  offsets : List Nat
  values : List Nat
deriving Repr, DecidableEq

/-- `Binary::with_capacity`: an empty accumulator (`offsets == [0]`); the
capacity argument only pre-allocates and has no logical effect. -/
def Binary.with_capacity (_capacity : Nat) : Binary :=
  { offsets := [0], values := [] }

/-- Modelled from the spec: `Binary::push` appends the bytes of `v` to the
flat buffer and one offset equal to the new buffer length. -/
def Binary.push (b : Binary) (v : ByteString) : Binary :=
  { offsets := b.offsets ++ [b.offsets.getLastD 0 + v.length]
  , values := b.values ++ v }

/-- Logical number of values held by the accumulator. -/
def Binary.count (b : Binary) : Nat := b.offsets.length - 1

/-- The accumulator pair `(Binary<O>, MutableBitmap)`; the validity bitmap
is a list of bits. -/
abbrev DecodedState := Binary × List Bool

/-- The closure `op` inside `push_valid`'s dictionary arms:
`&dict_values[dict_offsets[index] as usize .. dict_offsets[index+1] as usize]`.
Rust panics when `index` or `index + 1` is out of bounds of the offset
array, or when the resulting range is invalid for the value buffer;
`none` models that panic. -/
def dict_op (dict : BinaryDict) (index : Nat) : Option ByteString :=
  match dict.offsets.get? index, dict.offsets.get? (index + 1) with
  | some a, some b =>
    if a ≤ b && b ≤ dict.values.length then
      some ((dict.values.drop a).take (b - a))
    else none
  | _, _ => none

/-- `BinaryDecoder::push_valid`.  Consumes one element of the state's lazy
sequence (`next()`), with `unwrap_or_default()` substituting the empty
byte string when the sequence is exhausted; dictionary arms resolve the
index through `dict_op`.  The result is the advanced state and the updated
accumulators; `none` models the Rust panic inside `dict_op`. -/
def push_valid (state : State) (decoded : DecodedState) :
    Option (State × DecodedState) :=
  match state with
  | State.Optional values =>
    match values with
    | [] => some (State.Optional [], (decoded.1.push [], decoded.2 ++ [true]))
    | v :: rest => some (State.Optional rest, (decoded.1.push v, decoded.2 ++ [true]))
  | State.Required values =>
    match values with
    | [] => some (State.Required [], (decoded.1.push [], decoded.2))
    | v :: rest => some (State.Required rest, (decoded.1.push v, decoded.2))
  | State.RequiredDictionary indices dict =>
    match indices with
    | [] => some (State.RequiredDictionary [] dict, (decoded.1.push [], decoded.2))
    | i :: rest =>
      match dict_op dict i with
      | some item =>
        some (State.RequiredDictionary rest dict, (decoded.1.push item, decoded.2))
      | none => none
  | State.OptionalDictionary indices dict =>
    match indices with
    | [] =>
      some (State.OptionalDictionary [] dict, (decoded.1.push [], decoded.2 ++ [true]))
    | i :: rest =>
      match dict_op dict i with
      | some item =>
        some (State.OptionalDictionary rest dict,
          (decoded.1.push item, decoded.2 ++ [true]))
      | none => none

/-- `BinaryDecoder::push_null`: appends an empty byte string and a `false`
validity bit, independent of any state. -/
def push_null (decoded : DecodedState) : DecodedState :=
  (decoded.1.push [], decoded.2 ++ [false])

/-- Runs `push_valid` a given number of times, threading state and
accumulators; fails if any push panics. -/
def run_pushes : Nat → State × DecodedState → Option (State × DecodedState)
  | 0, sd => some sd
  | n + 1, sd => (push_valid sd.1 sd.2).bind (run_pushes n)

/-- The three-way internal result of the driver step
(`utils::MaybeNext`). -/
inductive MaybeNext (α : Type)
  | some (a : α)
  | none
  | more

/-- `ArrayIterator::next`, abstracted over the inner `next` helper (defined
outside this source file): `steps` lists the successive results that the
inner helper returns on successive invocations.  On `MaybeNext::More` the
source performs `self.next()`, a recursive self-invocation; the first
component counts the call depth (number of nested activations of `next`),
the second is the value returned.  An empty `steps` list is treated as the
inner helper reporting exhaustion. -/
def array_iterator_next {α : Type} : List (MaybeNext α) → Nat × Option α
  | [] => (1, Option.none)
  | MaybeNext.some a :: _ => (1, Option.some a)
  | MaybeNext.none :: _ => (1, Option.none)
  | MaybeNext.more :: rest =>
    let r := array_iterator_next rest
    (r.1 + 1, r.2)

/-- Whether a state variant appends validity bits on `push_valid`. -/
def State.appends_validity : State → Bool
  | State.Optional _ => true
  | State.Required _ => false
  | State.RequiredDictionary _ _ => false
  | State.OptionalDictionary _ _ => true

/-- The example dictionary of the specification:
values `["a", "bb", "ccc"]` flattened, offsets `[0, 1, 3, 6]`. -/
def ex_dict : BinaryDict :=
  { values := [97, 98, 98, 99, 99, 99], offsets := [0, 1, 3, 6] }

/-- A dictionary whose entry 0 is the empty byte string
(offsets `[0, 0, 1]` over the single byte `x`). -/
def empty_entry_dict : BinaryDict :=
  { values := [120], offsets := [0, 0, 1] }

/-- Empty accumulators, as produced by `with_capacity`. -/
def empty_decoded : DecodedState := (Binary.with_capacity 0, [])

/-- A dictionary-encoded page whose dictionary reference is of the wrong
concrete type. -/
def mismatched_page : DataPage :=
  { encoding := Encoding.plainDictionary
  , dictionary := some AnyDictPage.nonBinary
  , isOptional := false
  , isFiltered := false
  , plainValues := []
  , dictIndices := [] }

/-- A dictionary-encoded, required, unfiltered page carrying the example
dictionary. -/
def ex_page_required_dict : DataPage :=
  { encoding := Encoding.plainDictionary
  , dictionary := some (AnyDictPage.binary ex_dict)
  , isOptional := false
  , isFiltered := false
  , plainValues := []
  , dictIndices := [2, 0, 1] }

/-- C1: `build_state` follows the decision table: dictionary encodings with
a (binary-typed) dictionary yield the Required or Optional Dictionary state
according to optionality; Plain yields the Optional or Required Plain
state; every other
combination — any filtered page, any unsupported encoding, a dictionary
encoding without a dictionary — fails with the explicit unsupported
(`not_implemented`) error.  `build_state` takes no accumulator, so no
accumulator is mutated on failure by construction. -/
theorem build_state_decision_table (page : DataPage) :
    (∀ bd, (page.encoding = Encoding.plainDictionary ∨ page.encoding = Encoding.rleDictionary) →
      page.dictionary = some (AnyDictPage.binary bd) →
      page.isOptional = false → page.isFiltered = false →
      build_state page = BuildResult.ok (State.RequiredDictionary page.dictIndices bd))
  ∧ (∀ bd, (page.encoding = Encoding.plainDictionary ∨ page.encoding = Encoding.rleDictionary) →
      page.dictionary = some (AnyDictPage.binary bd) →
      page.isOptional = true → page.isFiltered = false →
      build_state page = BuildResult.ok (State.OptionalDictionary page.dictIndices bd))
  ∧ (page.encoding = Encoding.plain → page.isOptional = true → page.isFiltered = false →
      build_state page = BuildResult.ok (State.Optional page.plainValues))
  ∧ (page.encoding = Encoding.plain → page.isOptional = false → page.isFiltered = false →
      build_state page = BuildResult.ok (State.Required page.plainValues))
  ∧ (page.isFiltered = true → build_state page = BuildResult.err DecodeError.notImplemented)
  ∧ (page.encoding = Encoding.other → build_state page = BuildResult.err DecodeError.notImplemented)
  ∧ ((page.encoding = Encoding.plainDictionary ∨ page.encoding = Encoding.rleDictionary) →
      page.dictionary = none → build_state page = BuildResult.err DecodeError.notImplemented) := by
  obtain ⟨enc, dict, opt, filt, pv, di⟩ := page
  refine ⟨?_, ?_, ?_, ?_, ?_, ?_, ?_⟩
  · rintro bd (rfl | rfl) rfl rfl rfl <;> rfl
  · rintro bd (rfl | rfl) rfl rfl rfl <;> rfl
  · rintro rfl rfl rfl; rfl
  · rintro rfl rfl rfl; rfl
  · rintro rfl
    rcases dict with _ | (bd | _) <;> cases enc <;> cases opt <;> rfl
  · rintro rfl
    rcases dict with _ | (bd | _) <;> cases opt <;> cases filt <;> rfl
  · rintro (rfl | rfl) rfl <;> cases opt <;> cases filt <;> rfl

/-- Witness for C1: a concrete required, unfiltered dictionary page builds
the Required-Dictionary state. -/
theorem build_state_decision_table_witness :
    build_state ex_page_required_dict
      = BuildResult.ok (State.RequiredDictionary [2, 0, 1] ex_dict) :=
  (build_state_decision_table ex_page_required_dict).1 ex_dict (Or.inl rfl) rfl rfl rfl

/-- C2: in both dictionary states, `push_valid` on an in-range index `i`
appends exactly the byte slice of the dictionary value buffer delimited by
`offsets[i]..offsets[i+1]`. -/
theorem push_valid_dictionary_resolves
    (dict : BinaryDict) (i : Nat) (rest : List Nat) (decoded : DecodedState)
    (a b : Nat)
    (ha : dict.offsets.get? i = some a)
    (hb : dict.offsets.get? (i + 1) = some b)
    (hab : a ≤ b) (hbl : b ≤ dict.values.length) :
    push_valid (State.RequiredDictionary (i :: rest) dict) decoded
      = some (State.RequiredDictionary rest dict,
          (decoded.1.push ((dict.values.drop a).take (b - a)), decoded.2))
  ∧ push_valid (State.OptionalDictionary (i :: rest) dict) decoded
      = some (State.OptionalDictionary rest dict,
          (decoded.1.push ((dict.values.drop a).take (b - a)), decoded.2 ++ [true])) := by
  have hop : dict_op dict i = some ((dict.values.drop a).take (b - a)) := by
    simp only [dict_op, ha, hb]
    simp [hab, hbl]
  constructor <;> simp [push_valid, hop]

/-- Witness for C2: with dictionary values `["a","bb","ccc"]` (offsets
`[0,1,3,6]`), index 2 resolves to `"ccc"`, and the index stream `[2,0,1]`
decoded in required-dictionary state appends `"ccc"`, `"a"`, `"bb"` in that
order. -/
theorem push_valid_dictionary_resolves_witness :
    (push_valid (State.RequiredDictionary [2] ex_dict) empty_decoded
        = some (State.RequiredDictionary [] ex_dict,
            ((Binary.with_capacity 0).push [99, 99, 99], []))
      ∧ push_valid (State.OptionalDictionary [2] ex_dict) empty_decoded
        = some (State.OptionalDictionary [] ex_dict,
            ((Binary.with_capacity 0).push [99, 99, 99], [true])))
  ∧ run_pushes 3 (State.RequiredDictionary [2, 0, 1] ex_dict, empty_decoded)
      = some (State.RequiredDictionary [] ex_dict,
          ({ offsets := [0, 3, 4, 6], values := [99, 99, 99, 97, 98, 98] }, [])) :=
  ⟨push_valid_dictionary_resolves ex_dict 2 [] empty_decoded 3 6 rfl rfl
      (by decide) (by decide), rfl⟩

/-- C3: an out-of-range dictionary index is not reported as an error value:
the code indexes the offset buffer directly and panics (modelled by `none`),
both for an index one past the last entry (where `offsets[index + 1]` is out
of bounds) and for an index far outside the dictionary. -/
theorem corrupt_index_panics :
    push_valid (State.RequiredDictionary [3] ex_dict) empty_decoded = none
  ∧ push_valid (State.OptionalDictionary [7] ex_dict) empty_decoded = none :=
  ⟨rfl, rfl⟩

/-- C4: a dictionary page of the wrong concrete type makes `build_state`
panic on the unchecked `downcast_ref().unwrap()`; no error value is
returned. -/
theorem type_mismatch_panics :
    build_state mismatched_page = BuildResult.panic
  ∧ (∀ e, build_state mismatched_page ≠ BuildResult.err e)
  ∧ (∀ s, build_state mismatched_page ≠ BuildResult.ok s) := by
  refine ⟨rfl, fun e h => ?_, fun s h => ?_⟩ <;> exact BuildResult.noConfusion h

/-- C5: in plain states with a non-exhausted value sequence, `push_valid`
appends the next byte string; the Optional state also appends a `true`
validity bit, the Required state appends no bit. -/
theorem push_valid_plain (v : ByteString) (rest : List ByteString)
    (decoded : DecodedState) :
    push_valid (State.Optional (v :: rest)) decoded
      = some (State.Optional rest, (decoded.1.push v, decoded.2 ++ [true]))
  ∧ push_valid (State.Required (v :: rest)) decoded
      = some (State.Required rest, (decoded.1.push v, decoded.2)) :=
  ⟨rfl, rfl⟩

/-- C6: `push_null` appends exactly one empty byte string (no bytes, one
zero-length offset) and exactly one `false` validity bit, and changes
nothing else; it does not depend on any state. -/
theorem push_null_appends_empty_false (decoded : DecodedState) :
    (push_null decoded).1.values = decoded.1.values
  ∧ (push_null decoded).1.offsets
      = decoded.1.offsets ++ [decoded.1.offsets.getLastD 0]
  ∧ (push_null decoded).2 = decoded.2 ++ [false] := by
  refine ⟨?_, ?_, rfl⟩ <;> simp [push_null, Binary.push]

/-- C7: in every state variant, `push_valid` on an exhausted sequence does
not abort: `unwrap_or_default` appends the default empty byte string (and
the optional variants still append their validity bit), so exactly one
slot (one new offset) is appended per push. -/
theorem push_valid_exhausted_default (dict : BinaryDict) (decoded : DecodedState) :
    push_valid (State.Optional []) decoded
      = some (State.Optional [], (decoded.1.push [], decoded.2 ++ [true]))
  ∧ push_valid (State.Required []) decoded
      = some (State.Required [], (decoded.1.push [], decoded.2))
  ∧ push_valid (State.RequiredDictionary [] dict) decoded
      = some (State.RequiredDictionary [] dict, (decoded.1.push [], decoded.2))
  ∧ push_valid (State.OptionalDictionary [] dict) decoded
      = some (State.OptionalDictionary [] dict, (decoded.1.push [], decoded.2 ++ [true]))
  ∧ (decoded.1.push []).offsets.length = decoded.1.offsets.length + 1 := by
  refine ⟨rfl, rfl, rfl, rfl, ?_⟩
  simp [Binary.push]

/-- C8: `ArrayIterator::next` handles `MaybeNext::More` by recursive
self-invocation, not by looping: on an inner step sequence of `n` `More`
results the call depth is `n + 1`, and no bound holds for the call depth
independent of the page sequence. -/
theorem next_handles_more_by_recursion :
    (∀ n : Nat,
      (array_iterator_next ((List.replicate n MaybeNext.more
          ++ [MaybeNext.none] : List (MaybeNext Nat)))).1 = n + 1)
  ∧ ¬ ∃ B : Nat, ∀ steps : List (MaybeNext Nat),
      (array_iterator_next steps).1 ≤ B := by
  have key : ∀ (n : Nat) (tail : List (MaybeNext Nat)),
      (array_iterator_next (List.replicate n MaybeNext.more ++ tail)).1
        = n + (array_iterator_next tail).1 := by
    intro n tail
    induction n with
    | zero => simp
    | succ n ih =>
      rw [List.replicate_succ, List.cons_append]
      show (array_iterator_next (List.replicate n MaybeNext.more ++ tail)).1 + 1 = _
      omega
  constructor
  · intro n
    rw [key]
    show n + 1 = n + 1
    rfl
  · rintro ⟨B, hB⟩
    have h := hB (List.replicate (B + 1) MaybeNext.more ++ [MaybeNext.none])
    rw [key] at h
    revert h
    show ¬ (B + 1 + 1 ≤ B)
    omega

/-- C9 counterexample: one `push_valid` in the Required plain state adds
one value but zero validity bits, so the bitmask length does not grow in
lock-step with the number of leaf slots pushed. -/
theorem bitmask_lockstep_cex :
    (push_valid (State.Required [[97]]) empty_decoded).map
        (fun r => (r.2.1.count, r.2.2.length)) = some (1, 0)
  ∧ (1 : Nat) ≠ 0 :=
  ⟨rfl, by decide⟩

/-- C9 amended: every successful `push_valid` appends exactly one value
(one offset); it appends exactly one validity bit in the Optional and
Optional-Dictionary states and none in the Required states; `push_null`
appends exactly one value and one `false` bit.  Hence the bitmask length
equals the number of optional-state `push_valid` calls plus `push_null`
calls, not the total number of leaf slots pushed. -/
theorem push_lengths (state : State) (decoded : DecodedState)
    (s2 : State) (d2 : DecodedState)
    (h : push_valid state decoded = some (s2, d2)) :
    d2.1.offsets.length = decoded.1.offsets.length + 1
  ∧ d2.2.length = decoded.2.length
      + (if state.appends_validity then 1 else 0)
  ∧ (push_null decoded).1.offsets.length = decoded.1.offsets.length + 1
  ∧ (push_null decoded).2.length = decoded.2.length + 1 := by
  cases state with
  | Optional values =>
    cases values <;>
      (simp only [push_valid] at h
       injection h with h1
       injection h1 with hs hd
       subst hs
       subst hd
       refine ⟨?_, ?_, ?_, ?_⟩ <;>
         simp [push_null, Binary.push, State.appends_validity])
  | Required values =>
    cases values <;>
      (simp only [push_valid] at h
       injection h with h1
       injection h1 with hs hd
       subst hs
       subst hd
       refine ⟨?_, ?_, ?_, ?_⟩ <;>
         simp [push_null, Binary.push, State.appends_validity])
  | RequiredDictionary indices dict =>
    cases indices with
    | nil =>
      simp only [push_valid] at h
      injection h with h1
      injection h1 with hs hd
      subst hs
      subst hd
      refine ⟨?_, ?_, ?_, ?_⟩ <;>
        simp [push_null, Binary.push, State.appends_validity]
    | cons i rest =>
      cases hop : dict_op dict i with
      | none => simp [push_valid, hop] at h
      | some item =>
        simp only [push_valid, hop] at h
        injection h with h1
        injection h1 with hs hd
        subst hs
        subst hd
        refine ⟨?_, ?_, ?_, ?_⟩ <;>
          simp [push_null, Binary.push, State.appends_validity]
  | OptionalDictionary indices dict =>
    cases indices with
    | nil =>
      simp only [push_valid] at h
      injection h with h1
      injection h1 with hs hd
      subst hs
      subst hd
      refine ⟨?_, ?_, ?_, ?_⟩ <;>
        simp [push_null, Binary.push, State.appends_validity]
    | cons i rest =>
      cases hop : dict_op dict i with
      | none => simp [push_valid, hop] at h
      | some item =>
        simp only [push_valid, hop] at h
        injection h with h1
        injection h1 with hs hd
        subst hs
        subst hd
        refine ⟨?_, ?_, ?_, ?_⟩ <;>
          simp [push_null, Binary.push, State.appends_validity]

/-- Witness for the amended C9: the Required-state push at a concrete
input adds one offset and zero bits, while `push_null` adds one offset and
one bit. -/
theorem push_lengths_witness :
    ([0, 1] : List Nat).length = ([0] : List Nat).length + 1
  ∧ ([] : List Bool).length = ([] : List Bool).length
      + (if (State.Required [[97]]).appends_validity then 1 else 0)
  ∧ (push_null empty_decoded).1.offsets.length = ([0] : List Nat).length + 1
  ∧ (push_null empty_decoded).2.length = ([] : List Bool).length + 1 :=
  push_lengths (State.Required [[97]]) empty_decoded (State.Required [])
    ({ offsets := [0, 1], values := [97] }, []) rfl

/-- C10: in the Optional-Dictionary state with an exhausted index
sequence, `push_valid` still appends a `true` validity bit together with
the default empty value; the resulting accumulators are identical to those
produced by resolving a genuine in-range index whose dictionary entry is
the empty byte string. -/
theorem optional_dictionary_exhausted_true_bit (dict : BinaryDict)
    (decoded : DecodedState) :
    push_valid (State.OptionalDictionary [] dict) decoded
      = some (State.OptionalDictionary [] dict,
          (decoded.1.push [], decoded.2 ++ [true]))
  ∧ (push_valid (State.OptionalDictionary [] empty_entry_dict) decoded).map
        (fun r => r.2)
      = (push_valid (State.OptionalDictionary [0] empty_entry_dict) decoded).map
        (fun r => r.2) :=
  ⟨rfl, rfl⟩
